import Mathlib

/-!
Verification of the hybrid-envelope / identifier / signature core of the
`keys` library, as a shallow embedding of `src/_base.ts`.

Bytes are lists of naturals (each value below 256 in real data).  Thrown
JavaScript errors and rejected promises are modelled with `Except Err`.
Randomness (WebCrypto key generation, random nonces) is passed in
explicitly as byte-list arguments.

The repository ships only `src/_base.ts`; its collaborators
(`util.js`, `constants.js`, the WebCrypto primitive provider and the
envelope-opening inverse) are modelled from the spec, each such
definition carrying a doc comment starting with "Modelled from the spec".
-/

abbrev Bytes := List Nat

/-- Error kinds of the spec's error-handling design (spec section 7). -/
inductive Err where
  | MalformedIdentifier
  | InvalidEncoding
  | KeyUseMismatch
  | InvalidKeyLength
  | DecryptionFailed
  | UnsupportedPublicKeyFormat
  | ProviderFailure
  deriving DecidableEq

instance {ε α : Type} [DecidableEq ε] [DecidableEq α] : DecidableEq (Except ε α) := fun x y =>
  match x, y with
  | .ok a, .ok b =>
    if h : a = b then isTrue (by rw [h]) else isFalse (fun he => h (Except.ok.inj he))
  | .error a, .error b =>
    if h : a = b then isTrue (by rw [h]) else isFalse (fun he => h (Except.error.inj he))
  | .ok _, .error _ => isFalse (fun he => Except.noConfusion he)
  | .error _, .ok _ => isFalse (fun he => Except.noConfusion he)

/-- Modelled from the spec: UTF-8 encoding of one character, as performed by
`TextEncoder`/`fromString` from the `uint8arrays` dependency. -/
def utf8EncodeChar (c : Char) : Bytes :=
  let n := c.toNat
  if n < 128 then [n]
  else if n < 2048 then [192 + n / 64, 128 + n % 64]
  else if n < 65536 then [224 + n / 4096, 128 + (n / 64) % 64, 128 + n % 64]
  else [240 + n / 262144, 128 + (n / 4096) % 64, 128 + (n / 64) % 64, 128 + n % 64]

/-- Modelled from the spec: `fromString` of `uint8arrays` with its default
(UTF-8) encoding, used to turn string content into bytes. -/
def fromString (s : String) : Bytes :=
  (s.data.map utf8EncodeChar).flatten

/-- The base64 alphabet. -/
def base64Chars : List Char :=
  "ABCDEFGHIJKLMNOPQRSTUVWXYZabcdefghijklmnopqrstuvwxyz0123456789+/".data

def b64c (n : Nat) : Char := base64Chars.getD n 'A'

/-- Modelled from the spec: padded base64 encoding (`base64pad` of
`uint8arrays`), the canonical text form of an envelope. -/
def base64padEncode : Bytes → List Char
  | [] => []
  | [a] => [b64c (a / 4), b64c (a % 4 * 16), '=', '=']
  | [a, b] => [b64c (a / 4), b64c (a % 4 * 16 + b / 16), b64c (b % 16 * 4), '=']
  | a :: b :: c :: rest =>
      b64c (a / 4) :: b64c (a % 4 * 16 + b / 16) :: b64c (b % 16 * 4 + c / 64)
        :: b64c (c % 64) :: base64padEncode rest

def toBase64Pad (b : Bytes) : String := String.mk (base64padEncode b)

def b64v (c : Char) : Option Nat :=
  let i := base64Chars.indexOf c
  if i < 64 then some i else none

/-- Modelled from the spec: base64 decoding of a string into bytes
(`base64ToArrBuf` of `util.js`); fails on text that is not base64. -/
def base64decodeChars : List Char → Option Bytes
  | [] => some []
  | [a, b, '=', '='] =>
      match b64v a, b64v b with
      | some x, some y => if y % 16 = 0 then some [x * 4 + y / 16] else none
      | _, _ => none
  | [a, b, c, '='] =>
      match b64v a, b64v b, b64v c with
      | some x, some y, some z =>
          if z % 4 = 0 then some [x * 4 + y / 16, y % 16 * 16 + z / 4] else none
      | _, _, _ => none
  | a :: b :: c :: d :: rest =>
      match b64v a, b64v b, b64v c, b64v d, base64decodeChars rest with
      | some x, some y, some z, some w, some bs =>
          some ((x * 4 + y / 16) :: (y % 16 * 16 + z / 4) :: (z % 4 * 64 + w) :: bs)
      | _, _, _, _, _ => none
  | _ => none

def base64ToArrBuf (s : String) : Option Bytes := base64decodeChars s.data

/-- The base32 alphabet (lowercase, unpadded, as used by `uint8arrays`). -/
def base32Chars : List Char := "abcdefghijklmnopqrstuvwxyz234567".data

def byteBits (b : Nat) : List Bool :=
  [b / 128 % 2 == 1, b / 64 % 2 == 1, b / 32 % 2 == 1, b / 16 % 2 == 1,
   b / 8 % 2 == 1, b / 4 % 2 == 1, b / 2 % 2 == 1, b % 2 == 1]

def quintVal (a b c d e : Bool) : Nat :=
  (if a then 16 else 0) + (if b then 8 else 0) + (if c then 4 else 0)
    + (if d then 2 else 0) + (if e then 1 else 0)

/-- Groups a bit stream into 5-bit values, zero-padding the tail. -/
def quintets : List Bool → List Nat
  | a :: b :: c :: d :: e :: rest => quintVal a b c d e :: quintets rest
  | [] => []
  | [a] => [quintVal a false false false false]
  | [a, b] => [quintVal a b false false false]
  | [a, b, c] => [quintVal a b c false false]
  | [a, b, c, d] => [quintVal a b c d false]

/-- Modelled from the spec: base32 encoding of bytes (`toString(_, 'base32')`
of `uint8arrays`), used only for the display-oriented device name. -/
def base32Encode (b : Bytes) : String :=
  String.mk ((quintets (b.map byteBits).flatten).map (fun n => base32Chars.getD n 'a'))

/-- Modelled from the spec: the Primitive Provider's cryptographic hash
(SHA-256 of `util.js`); a deterministic 32-byte digest stand-in. -/
def sha256 (msg : Bytes) : Bytes :=
  (List.range 32).map
    (fun i => msg.foldl (fun acc b => (acc * 131 + b + 1) % 65521) (i * 37 + 11) % 256)

/-- Modelled from the spec: `randomBuf` of `util.js`; draws `n` bytes of
entropy from the explicitly passed randomness source. -/
def randomBuf (rng : Bytes) (n : Nat) : Bytes :=
  (rng ++ List.replicate n 0).take n

/-- XOR a byte stream onto a byte list, starting at stream index `i`. -/
def maskWith (ks : Nat → Nat) : Nat → Bytes → Bytes
  | _, [] => []
  | i, b :: bs => (b ^^^ ks i) :: maskWith ks (i + 1) bs

/-- Modelled from the spec: the keystream of the provider's authenticated
symmetric cipher (AES-GCM of WebCrypto), determined by key, nonce and lane. -/
def byteStream (key iv : Bytes) (salt : Nat) (i : Nat) : Nat :=
  (key.foldl (fun a b => (a * 131 + b + 1) % 65521) (salt * 73 + 5) * 31
    + iv.foldl (fun a b => (a * 137 + b + 1) % 65521) 11 * 17 + i * 101 + salt) % 256

/-- Modelled from the spec: authenticated symmetric encryption
(`webcrypto.subtle.encrypt` with AES-GCM).  The output is the masked body
followed by an authentication tag binding key, nonce and body.  The tag is
idealized to be information-theoretically binding, so that authentication
failure on tampering is certain rather than overwhelmingly probable. -/
def gcmEncrypt (key iv pt : Bytes) : Bytes :=
  maskWith (byteStream key iv 0) 0 pt
    ++ maskWith (byteStream key iv 1) 0 (maskWith (byteStream key iv 0) 0 pt)

/-- Modelled from the spec: authenticated symmetric decryption
(`webcrypto.subtle.decrypt` with AES-GCM); yields the plaintext only when
the authentication tag matches, and nothing otherwise. -/
def gcmDecrypt (key iv ct : Bytes) : Option Bytes :=
  let m := ct.length / 2
  if ct.length % 2 = 0 ∧ ct.drop m = maskWith (byteStream key iv 1) 0 (ct.take m) then
    some (maskWith (byteStream key iv 0) 0 (ct.take m))
  else none

/-- Modelled from the spec: the keystream of the provider's asymmetric
cipher for a given RSA key seed. -/
def streamRSA (seed : Nat) (i : Nat) : Nat :=
  (seed % 65521 * 31 + i * 67 + 23) % 256

/-- An RSA public key handle: its seed identifies the underlying key
material, `sizeBytes` is the modulus size in bytes. -/
structure RsaPub where
  seed : Nat
  sizeBytes : Nat
  deriving DecidableEq

/-- An RSA keypair; the private half is an opaque capability sharing the
seed of the public half. -/
structure RsaKeypair where
  seed : Nat
  sizeBytes : Nat
  deriving DecidableEq

def pubOf (kp : RsaKeypair) : RsaPub := ⟨kp.seed, kp.sizeBytes⟩

/-- Modelled from the spec: `rsaOperations.encrypt` of `util.js` on raw
bytes (RSA-OAEP wrap).  Output length always equals the recipient key size
in bytes; fails if the message does not fit the modulus. -/
def rsaEncrypt (pk : RsaPub) (data : Bytes) : Except Err Bytes :=
  if data.length + 1 ≤ pk.sizeBytes ∧ data.length < 256 then
    .ok (maskWith (streamRSA pk.seed) 0
      ((data.length :: data) ++ List.replicate (pk.sizeBytes - (data.length + 1)) 0))
  else .error .ProviderFailure

/-- Modelled from the spec: `rsaOperations.decrypt` of `util.js`
(RSA-OAEP unwrap with the private key). -/
def rsaDecrypt (kp : RsaKeypair) (wrapped : Bytes) : Except Err Bytes :=
  match maskWith (streamRSA kp.seed) 0 wrapped with
  | [] => .error .ProviderFailure
  | len :: rest => if len ≤ rest.length then .ok (rest.take len) else .error .ProviderFailure

/-- A key-use tag (spec data model): exchange or signing. -/
inductive KeyUse where
  | Exchange
  | Sign
  deriving DecidableEq

/-- The supported asymmetric algorithm family (the library exposes RSA
only, awaiting wider ECC support). -/
inductive KeyAlg where
  | RSA
  deriving DecidableEq

/-- Modelled from the spec: the identifier tag table, one short fixed ASCII
tag per supported algorithm-and-usage pair, no tag a prefix of another. -/
def tagOf : KeyAlg → KeyUse → String
  | .RSA, .Exchange => "did:key:zenc."
  | .RSA, .Sign => "did:key:zsig."

def hexChars : List Char := "0123456789abcdef".data

def hexDigit (n : Nat) : Char := hexChars.getD n '0'

def hexVal (c : Char) : Option Nat :=
  let i := hexChars.indexOf c
  if i < 16 then some i else none

/-- Modelled from the spec: the base encoding of public key bytes inside an
identifier (two hex digits per byte). -/
def hexEncode : Bytes → List Char
  | [] => []
  | b :: bs => hexDigit (b / 16) :: hexDigit (b % 16) :: hexEncode bs

def hexDecode : List Char → Option Bytes
  | [] => some []
  | [_] => none
  | c1 :: c2 :: rest =>
      match hexVal c1, hexVal c2, hexDecode rest with
      | some h, some l, some bs => some ((h * 16 + l) :: bs)
      | _, _, _ => none

/-- Returns the remainder of `s` after the prefix `p`, when `p` is a prefix. -/
def stripPrefixChars : List Char → List Char → Option (List Char)
  | [], s => some s
  | _, [] => none
  | a :: ps, b :: ss => if a = b then stripPrefixChars ps ss else none

/-- Modelled from the spec: the Identifier Codec's encoder
(`publicKeyToDid` of `util.js`): tag followed by base-encoded key bytes. -/
def encodeIdentifier (bytes : Bytes) (alg : KeyAlg) (use : KeyUse) : String :=
  tagOf alg use ++ String.mk (hexEncode bytes)

/-- Modelled from the spec: the Identifier Codec's decoder
(`didToPublicKey` of `util.js`): matches a known tag at the start, then
base-decodes the remainder; fails with `MalformedIdentifier` when no tag
matches and with `InvalidEncoding` when the remainder is not valid. -/
def decodeIdentifier (s : String) : Except Err (Bytes × KeyAlg × KeyUse) :=
  match stripPrefixChars (tagOf .RSA .Exchange).data s.data with
  | some rest =>
      match hexDecode rest with
      | some b => .ok (b, .RSA, .Exchange)
      | none => .error .InvalidEncoding
  | none =>
      match stripPrefixChars (tagOf .RSA .Sign).data s.data with
      | some rest =>
          match hexDecode rest with
          | some b => .ok (b, .RSA, .Sign)
          | none => .error .InvalidEncoding
      | none => .error .MalformedIdentifier

/-- Modelled from the spec: `didToPublicKey` of `util.js`, returning the
decoded public key bytes with their metadata, throwing on bad identifiers. -/
def didToPublicKey (did : String) : Except Err (Bytes × KeyAlg × KeyUse) :=
  decodeIdentifier did

/-- A provider-native public verification key handle. -/
structure PublicVerifyKey where
  raw : Bytes
  deriving DecidableEq

/-- Modelled from the spec: `importPublicKey` of `util.js`; imports raw
public key bytes into a provider-native handle for the requested use. -/
def importPublicKey (b : Bytes) (_use : KeyUse) : Except Err PublicVerifyKey :=
  .ok ⟨b⟩

/-- Modelled from the spec: the Primitive Provider's signature primitive;
a signature is a digest bound to the signer's public key bytes and the
message, so verification recomputes and compares it. -/
def rsaSignature (publicRaw msg : Bytes) : Bytes :=
  sha256 (publicRaw ++ msg)

/-- Modelled from the spec: the provider's `verify` on raw bytes; resolves
to a boolean (true exactly on a genuine signature). -/
def rsaVerifyPrim (msg sig : Bytes) (key : PublicVerifyKey) : Bool :=
  sig == rsaSignature key.raw msg

/-- Modelled from the spec: `IV_LENGTH` of `constants.js` — the 96-bit
(12-byte) random nonce of the authenticated cipher. -/
def IV_LENGTH : Nat := 12

/-- Modelled from the spec: `DEFAULT_SYMM_ALGORITHM` of `constants.js`. -/
def DEFAULT_SYMM_ALGORITHM : String := "AES-GCM"

/-- Modelled from the spec: `DEFAULT_SYMM_LENGTH` of `constants.js` — the
default symmetric key length in bits. -/
def DEFAULT_SYMM_LENGTH : Nat := 256

/-- A symmetric `CryptoKey` handle; in the model it carries its raw bytes. -/
structure SymmKeyHandle where
  raw : Bytes
  deriving DecidableEq

/-- A `string | Uint8Array` value, as taken by several `_base.ts` entry
points for message content, signatures and encrypted data. -/
inductive Msg where
  | str (s : String)
  | bytes (b : Bytes)
  deriving DecidableEq

/-- The `typeof content === 'string' ? fromString(content) : content`
normalization used by `encryptTo`. -/
def contentBytes : Msg → Bytes
  | .str s => fromString s
  | .bytes b => b

/-- A `SymmKey | Uint8Array | string` optional AES-key argument. -/
inductive KeyMaterial where
  | handle (k : SymmKeyHandle)
  | raw (b : Bytes)
  | str (s : String)
  deriving DecidableEq

/-- JavaScript truthiness of a `SymmKey | Uint8Array | string` value, as
tested by `aesKey || await AES.create()`: only the empty string is falsy
(handles and byte arrays are objects, hence always truthy). -/
def keyFalsy : KeyMaterial → Bool
  | .str s => s.isEmpty
  | _ => false

/-- A `CryptoKey | Uint8Array` argument of the symmetric encrypt/decrypt
functions. -/
inductive CryptoKeyOrBytes where
  | ck (k : SymmKeyHandle)
  | bytes (b : Bytes)
  deriving DecidableEq

/-- The accepted raw symmetric key sizes in bytes (128, 192 or 256 bits),
from the spec's `SymmKeyLength` kinds. -/
def acceptedSymmKeyBytes : List Nat := [16, 24, 32]

/-- `importAesKey` of `_base.ts`: imports raw bytes as an AES-GCM key via
`webcrypto.subtle.importKey`, whose raw AES import derives the key length
from the data and rejects any length other than an accepted one
(modelled from the spec: `InvalidKeyLength` on any other length). -/
def importAesKey (key : Bytes) : Except Err SymmKeyHandle :=
  if key.length ∈ acceptedSymmKeyBytes then .ok ⟨key⟩ else .error .InvalidKeyLength

/-- `AES.create` of `_base.ts`: generates a fresh symmetric key of
`opts.length` bits from the randomness source. -/
def AES.create (_alg : String) (length : Nat) (rng : Bytes) : SymmKeyHandle :=
  ⟨randomBuf rng (length / 8)⟩

/-- `AES.export` of `_base.ts` (`export` is reserved in Lean): raw bytes
of a symmetric key handle. -/
def AES.exportKey (key : SymmKeyHandle) : Bytes := key.raw

/-- `AES.import` of `_base.ts` (`import` is reserved in Lean): decodes a
base64 string argument, then imports the raw bytes. -/
def AES.importKey : Msg → Except Err SymmKeyHandle
  | .bytes b => importAesKey b
  | .str s =>
      match base64ToArrBuf s with
      | some b => importAesKey b
      | none => .error .InvalidEncoding

/-- Resolution of a `CryptoKey | Uint8Array` argument into a key handle
(the `isCryptoKey(cryptoKey) ? cryptoKey : await importAesKey(cryptoKey)`
step shared by `encrypt` and `AES.decrypt`). -/
def resolveAesKey : CryptoKeyOrBytes → Except Err SymmKeyHandle
  | .ck k => .ok k
  | .bytes b => importAesKey b

/-- `encryptBytes` of `_base.ts`: draws a random `IV_LENGTH`-byte nonce,
encrypts under AES-GCM and prefixes the nonce to the ciphertext. -/
def encryptBytes (data : Bytes) (key : SymmKeyHandle) (rng : Bytes) : Bytes :=
  randomBuf rng IV_LENGTH ++ gcmEncrypt key.raw (randomBuf rng IV_LENGTH) data

/-- `encrypt` of `_base.ts` (also exposed as `AES.encrypt`): with a
caller-supplied `iv` it encrypts directly (no nonce prefix); without one
it delegates to `encryptBytes`, which prefixes a fresh random nonce.  The
`format` parameter of the source only selects the JavaScript container
type of the same bytes and is dropped here. -/
def encrypt (data : Bytes) (cryptoKey : CryptoKeyOrBytes) (iv? : Option Bytes)
    (rng : Bytes) : Except Err Bytes :=
  match resolveAesKey cryptoKey with
  | .error e => .error e
  | .ok key =>
      match iv? with
      | some iv => .ok (gcmEncrypt key.raw iv data)
      | none => .ok (encryptBytes data key rng)

/-- `normalizeBase64ToBuf` of `util.js` applied to a `Msg` (modelled from
the spec: a string argument is base64-decoded, bytes pass through). -/
def normalizeBase64ToBuf : Msg → Except Err Bytes
  | .bytes b => .ok b
  | .str s =>
      match base64ToArrBuf s with
      | some b => .ok b
      | none => .error .InvalidEncoding

/-- `decryptBytes` of `_base.ts`: the nonce is expected as an
`IV_LENGTH`-byte prefix of the message; authenticated decryption of the
remainder either yields the full plaintext or fails. -/
def decryptBytes (msg : Msg) (key : SymmKeyHandle) : Except Err Bytes :=
  match normalizeBase64ToBuf msg with
  | .error e => .error e
  | .ok cipherText =>
      match gcmDecrypt key.raw (cipherText.take IV_LENGTH) (cipherText.drop IV_LENGTH) with
      | some pt => .ok pt
      | none => .error .DecryptionFailed

/-- `AES.decrypt` of `_base.ts`: with an explicit `iv` the whole input is
the ciphertext; without one the `iv` is taken from the input's prefix via
`decryptBytes`.  A string input is UTF-8 decoded in the explicit-`iv`
branch (`fromString`) but base64-decoded in the other branch
(`normalizeBase64ToBuf`), exactly as in the source. -/
def AES.decrypt (encryptedData : Msg) (cryptoKey : CryptoKeyOrBytes)
    (iv? : Option Bytes) : Except Err Bytes :=
  match resolveAesKey cryptoKey with
  | .error e => .error e
  | .ok key =>
      match iv? with
      | some iv =>
          match gcmDecrypt key.raw iv (contentBytes encryptedData) with
          | some pt => .ok pt
          | none => .error .DecryptionFailed
      | none => decryptBytes encryptedData key

/-- `encryptKeyTo` of `_base.ts`: a `CryptoKey` is exported to raw bytes,
then the raw symmetric key bytes are RSA-encrypted to the recipient
public key (modelled from the spec: a base64-string key stands for its
raw bytes, matching the Key Codec's import). -/
def encryptKeyTo (key : KeyMaterial) (publicKey : RsaPub) : Except Err Bytes :=
  match key with
  | .handle k => rsaEncrypt publicKey (AES.exportKey k)
  | .raw b => rsaEncrypt publicKey b
  | .str s =>
      match base64ToArrBuf s with
      | some b => rsaEncrypt publicKey b
      | none => .error .InvalidEncoding

/-- The `const key = aesKey || await AES.create()` step of `encryptTo`:
a truthy supplied key is used as-is, otherwise a fresh default key is
created. -/
def resolveSuppliedKey (aesKey : Option KeyMaterial) (rngKey : Bytes) : KeyMaterial :=
  match aesKey with
  | some k =>
      if keyFalsy k then
        .handle (AES.create DEFAULT_SYMM_ALGORITHM DEFAULT_SYMM_LENGTH rngKey)
      else k
  | none => .handle (AES.create DEFAULT_SYMM_ALGORITHM DEFAULT_SYMM_LENGTH rngKey)

/-- The `typeof key === 'string' ? await AES.import(key) : key` step of
`encryptTo`: a base64-string key is imported before content encryption;
handles and raw bytes pass through to `AES.encrypt` unchanged. -/
def contentCryptoKey : KeyMaterial → Except Err CryptoKeyOrBytes
  | .str s => (AES.importKey (.str s)).map CryptoKeyOrBytes.ck
  | .handle k => .ok (CryptoKeyOrBytes.ck k)
  | .raw b => .ok (CryptoKeyOrBytes.bytes b)

/-- `encryptTo` of `_base.ts` (the spec's `sealTo`): take the supplied AES
key or create a fresh one, encrypt the content with it (importing the key
first when it is a base64 string), wrap the key to the recipient public
key, and return wrapped key concatenated with the encrypted content. -/
def encryptTo (content : Msg) (publicKey : RsaPub) (aesKey : Option KeyMaterial)
    (rngKey rngIv : Bytes) : Except Err Bytes :=
  let key : KeyMaterial := resolveSuppliedKey aesKey rngKey
  match contentCryptoKey key with
  | .error e => .error e
  | .ok contentKey =>
      match encrypt (contentBytes content) contentKey none rngIv with
      | .error e => .error e
      | .ok encryptedContent =>
          match encryptKeyTo key publicKey with
          | .error e => .error e
          | .ok encryptedKey => .ok (encryptedKey ++ encryptedContent)

/-- `encryptTo.asString` of `_base.ts`: same computation as `encryptTo`
(the source's `'arraybuffer'` format selects the same bytes), with the
joined buffer encoded as padded base64. -/
def encryptTo.asString (content : Msg) (publicKey : RsaPub) (aesKey : Option KeyMaterial)
    (rngKey rngIv : Bytes) : Except Err String :=
  let key : KeyMaterial := resolveSuppliedKey aesKey rngKey
  match contentCryptoKey key with
  | .error e => .error e
  | .ok contentKey =>
      match encrypt (contentBytes content) contentKey none rngIv with
      | .error e => .error e
      | .ok encryptedContent =>
          match encryptKeyTo key publicKey with
          | .error e => .error e
          | .ok encryptedKey => .ok (toBase64Pad (encryptedKey ++ encryptedContent))

/-- Modelled from the spec: `openFrom(envelope, recipientKeyPair)`
(section 4.3; the inverse envelope operation lives outside `_base.ts`):
split the buffer at the recipient's wrapped-key length, asymmetrically
decrypt the wrapped key, import it, and symmetrically decrypt the
nonce-prefixed remainder via `AES.decrypt` with the nonce taken from the
prefix. -/
def openFrom (envelope : Bytes) (kp : RsaKeypair) : Except Err Bytes :=
  match rsaDecrypt kp (envelope.take kp.sizeBytes) with
  | .error e => .error e
  | .ok rawKey =>
      match importAesKey rawKey with
      | .error e => .error e
      | .ok key => AES.decrypt (.bytes (envelope.drop kp.sizeBytes)) (.ck key) none

/-- `verify` of `_base.ts`: the signer identifier is resolved
(`didToPublicKey`, then `importPublicKey` with usage Sign) BEFORE the
`try`/`catch`, so resolution failures propagate as thrown errors; only
the provider's verification step has its failures collapsed to a boolean.
A string signature is base64-decoded by the provider's verify (modelled
from the spec); its failure escapes as well, because the source returns
the provider's promise from inside `try` without `await`, so a rejection
is never caught. -/
def verify (msg sig : Msg) (signingDid : String) : Except Err Bool :=
  match didToPublicKey signingDid with
  | .error e => .error e
  | .ok pk =>
      match importPublicKey pk.1 KeyUse.Sign with
      | .error e => .error e
      | .ok key =>
          match sig with
          | .bytes b => .ok (rsaVerifyPrim (contentBytes msg) b key)
          | .str s =>
              match base64ToArrBuf s with
              | some b => .ok (rsaVerifyPrim (contentBytes msg) b key)
              | none => .error .InvalidEncoding

/-- The first-`n`-characters slice used by `getDeviceName`
(`.slice(0, n)` of a JavaScript string; the base32 alphabet is one UTF-16
unit per character, so this is a character-level prefix). -/
def sliceChars (s : String) (n : Nat) : String := String.mk (s.data.take n)

/-- Modelled from the spec: canonical Unicode (NFD) normalization; on the
ASCII identifier strings of this system it is the identity. -/
def normalizeNFD (s : String) : String := s

/-- `getDeviceName` of `_base.ts`: hash the NFD-normalized identifier,
base32-encode the digest, and keep the first 32 characters. -/
def getDeviceName (did : String) : String :=
  sliceChars (base32Encode (sha256 (fromString (normalizeNFD did)))) 32

/-! Helper lemmas about the byte-level primitives. -/

theorem maskWith_length (ks : Nat → Nat) (i : Nat) (b : Bytes) :
    (maskWith ks i b).length = b.length := by
  induction b generalizing i with
  | nil => rfl
  | cons x xs ih => simp [maskWith, ih]

theorem maskWith_maskWith (ks : Nat → Nat) (i : Nat) (b : Bytes) :
    maskWith ks i (maskWith ks i b) = b := by
  induction b generalizing i with
  | nil => rfl
  | cons x xs ih =>
      simp only [maskWith, ih]
      rw [Nat.xor_assoc, Nat.xor_self, Nat.xor_zero]

theorem xor_ne_of_ne_zero {b k : Nat} (h : k ≠ 0) : b ^^^ k ≠ b := by
  intro hc
  have h2 : b ^^^ (b ^^^ k) = b ^^^ b := by rw [hc]
  rw [← Nat.xor_assoc, Nat.xor_self, Nat.zero_xor] at h2
  exact h h2

/-- Flip bit `k` of the byte at position `p` (out-of-range positions leave
the list unchanged). -/
def flipBit : Bytes → Nat → Nat → Bytes
  | [], _, _ => []
  | b :: bs, 0, k => (b ^^^ 2 ^ k) :: bs
  | b :: bs, p + 1, k => b :: flipBit bs p k

theorem flipBit_length (b : Bytes) (p k : Nat) : (flipBit b p k).length = b.length := by
  induction b generalizing p with
  | nil => rfl
  | cons x xs ih =>
      cases p with
      | zero => rfl
      | succ q => simp [flipBit, ih]

theorem flipBit_append_left (a b : Bytes) (p k : Nat) (h : p < a.length) :
    flipBit (a ++ b) p k = flipBit a p k ++ b := by
  induction a generalizing p with
  | nil => simp at h
  | cons x xs ih =>
      cases p with
      | zero => rfl
      | succ q =>
          simp only [List.cons_append, flipBit, List.append_eq]
          rw [ih q (by simpa using h)]

theorem flipBit_append_right (a b : Bytes) (p k : Nat) :
    flipBit (a ++ b) (a.length + p) k = a ++ flipBit b p k := by
  induction a with
  | nil => simp
  | cons x xs ih =>
      simp only [List.cons_append, List.length_cons]
      have hsucc : xs.length + 1 + p = (xs.length + p) + 1 := by omega
      rw [hsucc]
      simp only [flipBit]
      rw [ih]

theorem flipBit_ne (b : Bytes) (p k : Nat) (h : p < b.length) : flipBit b p k ≠ b := by
  induction b generalizing p with
  | nil => simp at h
  | cons x xs ih =>
      cases p with
      | zero =>
          simp only [flipBit]
          intro hc
          exact xor_ne_of_ne_zero (Nat.two_pow_pos k).ne' (List.cons.inj hc).1
      | succ q =>
          simp only [flipBit]
          intro hc
          exact ih q (by simpa using h) (List.cons.inj hc).2

theorem maskWith_flipBit (ks : Nat → Nat) (i : Nat) (b : Bytes) (p k : Nat) :
    maskWith ks i (flipBit b p k) = flipBit (maskWith ks i b) p k := by
  induction b generalizing i p with
  | nil => rfl
  | cons x xs ih =>
      cases p with
      | zero =>
          simp only [flipBit, maskWith]
          rw [Nat.xor_assoc, Nat.xor_comm (2 ^ k) (ks i), ← Nat.xor_assoc]
      | succ q =>
          simp only [flipBit, maskWith]
          rw [ih]

theorem randomBuf_length (rng : Bytes) (n : Nat) : (randomBuf rng n).length = n := by
  simp [randomBuf]

theorem gcm_roundtrip (key iv pt : Bytes) :
    gcmDecrypt key iv (gcmEncrypt key iv pt) = some pt := by
  unfold gcmEncrypt gcmDecrypt
  set b := maskWith (byteStream key iv 0) 0 pt with hbdef
  set t := maskWith (byteStream key iv 1) 0 b with htdef
  have htl : t.length = b.length := maskWith_length ..
  have hm : (b ++ t).length / 2 = b.length := by
    rw [List.length_append, htl]; omega
  have heven : (b ++ t).length % 2 = 0 := by
    rw [List.length_append, htl]; omega
  simp only [hm, List.take_left, List.drop_left]
  rw [if_pos ⟨heven, trivial⟩, hbdef, maskWith_maskWith]

theorem gcm_tamper (key iv pt : Bytes) (p k : Nat)
    (h : p < (gcmEncrypt key iv pt).length) :
    gcmDecrypt key iv (flipBit (gcmEncrypt key iv pt) p k) = none := by
  unfold gcmEncrypt at h ⊢
  set b := maskWith (byteStream key iv 0) 0 pt with hbdef
  set t := maskWith (byteStream key iv 1) 0 b with htdef
  have htl : t.length = b.length := maskWith_length ..
  rw [List.length_append, htl] at h
  by_cases hp : p < b.length
  · rw [flipBit_append_left b t p k hp]
    have hfl : (flipBit b p k).length = b.length := flipBit_length ..
    unfold gcmDecrypt
    have hm : (flipBit b p k ++ t).length / 2 = b.length := by
      rw [List.length_append, hfl, htl]; omega
    simp only [hm, List.take_left' hfl, List.drop_left' hfl]
    rw [if_neg]
    intro hand
    have hmf : maskWith (byteStream key iv 1) 0 (flipBit b p k) = flipBit t p k := by
      rw [maskWith_flipBit, ← htdef]
    exact flipBit_ne t p k (by omega) (hand.2.trans hmf).symm
  · have hq : p = b.length + (p - b.length) := by omega
    rw [hq, flipBit_append_right]
    have hfl : (flipBit t (p - b.length) k).length = b.length := by
      rw [flipBit_length, htl]
    unfold gcmDecrypt
    have hm : (b ++ flipBit t (p - b.length) k).length / 2 = b.length := by
      rw [List.length_append, hfl]; omega
    simp only [hm, List.take_left, List.drop_left]
    rw [if_neg]
    intro hand
    exact flipBit_ne t (p - b.length) k (by omega) hand.2

theorem rsaEncrypt_ok (pk : RsaPub) (data w : Bytes)
    (h : rsaEncrypt pk data = .ok w) :
    data.length + 1 ≤ pk.sizeBytes ∧ data.length < 256 ∧ w.length = pk.sizeBytes := by
  unfold rsaEncrypt at h
  by_cases hc : data.length + 1 ≤ pk.sizeBytes ∧ data.length < 256
  · rw [if_pos hc] at h
    refine ⟨hc.1, hc.2, ?_⟩
    rw [← Except.ok.inj h, maskWith_length]
    simp only [List.cons_append, List.length_cons, List.length_append,
      List.length_replicate]
    omega
  · rw [if_neg hc] at h
    exact absurd h (by simp)

theorem rsa_roundtrip (kp : RsaKeypair) (data w : Bytes)
    (h : rsaEncrypt (pubOf kp) data = .ok w) :
    rsaDecrypt kp w = .ok data := by
  obtain ⟨h1, h2, _⟩ := rsaEncrypt_ok _ _ _ h
  unfold rsaEncrypt at h
  rw [if_pos ⟨h1, h2⟩] at h
  have hw := Except.ok.inj h
  unfold rsaDecrypt
  have hseed : (pubOf kp).seed = kp.seed := rfl
  rw [← hw, hseed, maskWith_maskWith]
  simp only [List.cons_append]
  rw [if_pos (by simp only [List.length_append, List.length_replicate]; omega)]
  rw [List.take_left]

theorem encryptKeyTo_ok_length (key : KeyMaterial) (pk : RsaPub) (w : Bytes)
    (h : encryptKeyTo key pk = .ok w) : w.length = pk.sizeBytes := by
  cases key with
  | handle k =>
      simp only [encryptKeyTo] at h
      exact (rsaEncrypt_ok _ _ _ h).2.2
  | raw b =>
      simp only [encryptKeyTo] at h
      exact (rsaEncrypt_ok _ _ _ h).2.2
  | str s =>
      simp only [encryptKeyTo] at h
      cases hb : base64ToArrBuf s with
      | none => rw [hb] at h; exact absurd h (by simp)
      | some b => rw [hb] at h; exact (rsaEncrypt_ok _ _ _ h).2.2

theorem encrypt_none_ok (data : Bytes) (ck : CryptoKeyOrBytes) (rng ec : Bytes)
    (h : encrypt data ck none rng = .ok ec) :
    ∃ kh, resolveAesKey ck = .ok kh ∧ ec = encryptBytes data kh rng := by
  unfold encrypt at h
  cases hr : resolveAesKey ck with
  | error e => rw [hr] at h; exact absurd h (by simp)
  | ok kh => rw [hr] at h; exact ⟨kh, rfl, (Except.ok.inj h).symm⟩

theorem encryptTo_ok_shape (content : Msg) (pk : RsaPub) (aesKey : Option KeyMaterial)
    (rngKey rngIv env : Bytes)
    (h : encryptTo content pk aesKey rngKey rngIv = .ok env) :
    ∃ w kh, env = w ++ encryptBytes (contentBytes content) kh rngIv
      ∧ w.length = pk.sizeBytes := by
  unfold encryptTo at h
  simp only [] at h
  split at h
  · exact absurd h (by simp)
  next ckk heq =>
    split at h
    · exact absurd h (by simp)
    next ec heq2 =>
      split at h
      · exact absurd h (by simp)
      next w heq3 =>
        obtain ⟨kh, _, hec2⟩ := encrypt_none_ok _ _ _ _ heq2
        exact ⟨w, kh, by rw [← Except.ok.inj h, hec2],
          encryptKeyTo_ok_length _ _ _ heq3⟩

theorem encryptTo_none_eq (content : Msg) (pk : RsaPub) (rngKey rngIv : Bytes) :
    encryptTo content pk none rngKey rngIv
      = (rsaEncrypt pk (randomBuf rngKey 32)).map
          (fun w => w ++ encryptBytes (contentBytes content) ⟨randomBuf rngKey 32⟩ rngIv) := by
  have hcreate : AES.create DEFAULT_SYMM_ALGORITHM DEFAULT_SYMM_LENGTH rngKey
      = ⟨randomBuf rngKey 32⟩ := rfl
  unfold encryptTo resolveSuppliedKey
  simp only [hcreate, contentCryptoKey, encrypt, resolveAesKey, encryptKeyTo,
    AES.exportKey]
  cases hw : rsaEncrypt pk (randomBuf rngKey 32) <;> simp [Except.map]

/-! Helper lemmas about the identifier codec. -/

theorem stripPrefixChars_eq_some (p s r : List Char) :
    stripPrefixChars p s = some r ↔ s = p ++ r := by
  induction p generalizing s with
  | nil =>
      simp [stripPrefixChars]
  | cons a ps ih =>
      cases s with
      | nil => simp [stripPrefixChars]
      | cons b ss =>
          simp only [stripPrefixChars, List.cons_append]
          by_cases hab : a = b
          · subst hab
            rw [if_pos rfl, ih]
            constructor
            · intro hs; rw [hs]
            · intro hs; exact (List.cons.inj hs).2
          · rw [if_neg hab]
            constructor
            · intro hs; exact absurd hs (by simp)
            · intro hs; exact absurd (List.cons.inj hs).1.symm hab

theorem stripPrefixChars_append (p r : List Char) :
    stripPrefixChars p (p ++ r) = some r :=
  (stripPrefixChars_eq_some p (p ++ r) r).mpr rfl

theorem stripPrefixChars_mismatch (p q r : List Char)
    (hl : p.length = q.length) (hne : p ≠ q) :
    stripPrefixChars p (q ++ r) = none := by
  cases hs : stripPrefixChars p (q ++ r) with
  | none => rfl
  | some r2 =>
      have := (stripPrefixChars_eq_some p (q ++ r) r2).mp hs
      exact absurd (List.append_inj this hl.symm).1.symm hne

theorem hexVal_hexDigit (n : Nat) (h : n < 16) : hexVal (hexDigit n) = some n := by
  interval_cases n <;> decide

theorem hexDecode_hexEncode (b : Bytes) (h : ∀ x ∈ b, x < 256) :
    hexDecode (hexEncode b) = some b := by
  induction b with
  | nil => rfl
  | cons x xs ih =>
      have hx : x < 256 := h x (List.mem_cons_self x xs)
      have hhi : x / 16 < 16 := by omega
      have hlo : x % 16 < 16 := by omega
      simp only [hexEncode, hexDecode, hexVal_hexDigit _ hhi, hexVal_hexDigit _ hlo,
        ih (fun y hy => h y (List.mem_cons_of_mem x hy))]
      have : x / 16 * 16 + x % 16 = x := by omega
      rw [this]

/-! The claims. -/

/-- Claim C1 (code bug): the spec requires `verify` never to throw and to
collapse every resolution failure to `false`, but the source resolves the
identifier outside its `try`/`catch`, so a malformed signer identifier
makes `verify` reject instead of returning `false`. -/
theorem verify_rejects_malformed_identifier :
    verify (.str "hello") (.str "abc") "nonsense" = .error .MalformedIdentifier := by
  decide

/-- Claim C3: decoding the identifier produced by encoding any valid
(bytes, algorithm, usage) triple returns exactly that triple. -/
theorem identifier_roundtrip (b : Bytes) (alg : KeyAlg) (use : KeyUse)
    (h : ∀ x ∈ b, x < 256) :
    decodeIdentifier (encodeIdentifier b alg use) = .ok (b, alg, use) := by
  cases alg
  cases use with
  | Exchange =>
      simp only [encodeIdentifier, decodeIdentifier, tagOf, String.data_append,
        stripPrefixChars_append, hexDecode_hexEncode b h]
  | Sign =>
      have hmis : stripPrefixChars (tagOf .RSA .Exchange).data
          ((tagOf .RSA .Sign).data ++ hexEncode b) = none :=
        stripPrefixChars_mismatch _ _ _ (by decide) (by decide)
      simp only [encodeIdentifier, decodeIdentifier, tagOf, String.data_append] at hmis ⊢
      simp only [hmis, stripPrefixChars_append, hexDecode_hexEncode b h]

/-- Claim C3 witness: the round-trip evaluated at a concrete key. -/
theorem identifier_roundtrip_witness :
    (∀ x ∈ ([0, 171, 255] : Bytes), x < 256)
      ∧ decodeIdentifier (encodeIdentifier [0, 171, 255] .RSA .Sign)
          = .ok ([0, 171, 255], .RSA, .Sign) :=
  ⟨by decide, identifier_roundtrip [0, 171, 255] .RSA .Sign (by decide)⟩

/-- Claim C6: with no supplied key, `encryptTo` uses a fresh key created
with the default algorithm and length from the key randomness source;
with a truthy supplied key, the result does not depend on the
key-generation randomness at all (no new key is generated). -/
theorem fresh_key_generation (content : Msg) (pk : RsaPub) (k : KeyMaterial)
    (rngKey rngKey2 rngIv : Bytes) (h : keyFalsy k = false) :
    encryptTo content pk (some k) rngKey rngIv
        = encryptTo content pk (some k) rngKey2 rngIv
    ∧ encryptTo content pk none rngKey rngIv
        = encryptTo content pk
            (some (.handle (AES.create DEFAULT_SYMM_ALGORITHM DEFAULT_SYMM_LENGTH rngKey)))
            rngKey2 rngIv := by
  constructor
  · unfold encryptTo resolveSuppliedKey
    simp [h]
  · unfold encryptTo resolveSuppliedKey
    simp [keyFalsy]

/-- Claim C6 witness: a concrete supplied raw key is used unchanged under
two different key-randomness sources. -/
theorem fresh_key_generation_witness :
    keyFalsy (.raw (List.replicate 16 0)) = false
      ∧ encryptTo (.str "hi") ⟨3, 40⟩ (some (.raw (List.replicate 16 0))) [1, 2] [9]
          = encryptTo (.str "hi") ⟨3, 40⟩ (some (.raw (List.replicate 16 0))) [7, 8] [9] :=
  ⟨by decide,
    (fresh_key_generation (.str "hi") ⟨3, 40⟩ (.raw (List.replicate 16 0))
      [1, 2] [7, 8] [9] (by decide)).1⟩

/-- Claim C7: importing symmetric key material (raw bytes, or a base64
string that decodes to bytes) fails with `InvalidKeyLength` exactly when
the decoded length is not an accepted symmetric key size, and otherwise
yields a handle holding those bytes. -/
theorem import_symmetric_key_length (b : Bytes) :
    (AES.importKey (.bytes b) = .error .InvalidKeyLength
        ↔ b.length ∉ acceptedSymmKeyBytes)
    ∧ (b.length ∈ acceptedSymmKeyBytes → AES.importKey (.bytes b) = .ok ⟨b⟩)
    ∧ ∀ (s : String) (bs : Bytes), base64ToArrBuf s = some bs →
        ((AES.importKey (.str s) = .error .InvalidKeyLength
            ↔ bs.length ∉ acceptedSymmKeyBytes)
          ∧ (bs.length ∈ acceptedSymmKeyBytes → AES.importKey (.str s) = .ok ⟨bs⟩)) := by
  refine ⟨?_, ?_, ?_⟩
  · simp only [AES.importKey, importAesKey]
    by_cases hm : b.length ∈ acceptedSymmKeyBytes
    · rw [if_pos hm]; simp [hm]
    · rw [if_neg hm]; simp [hm]
  · intro hm
    simp [AES.importKey, importAesKey, hm]
  · intro s bs hs
    simp only [AES.importKey, hs, importAesKey]
    constructor
    · by_cases hm : bs.length ∈ acceptedSymmKeyBytes
      · rw [if_pos hm]; simp [hm]
      · rw [if_neg hm]; simp [hm]
    · intro hm
      rw [if_pos hm]

/-- Claim C7 witness: a 22-character base64 string decoding to 16 zero
bytes imports successfully; the 32-byte raw case also imports. -/
theorem import_symmetric_key_length_witness :
    base64ToArrBuf "AAAAAAAAAAAAAAAAAAAAAA==" = some (List.replicate 16 0)
      ∧ AES.importKey (.str "AAAAAAAAAAAAAAAAAAAAAA==") = .ok ⟨List.replicate 16 0⟩
      ∧ AES.importKey (.bytes (List.replicate 32 0)) = .ok ⟨List.replicate 32 0⟩ :=
  ⟨by decide,
    ((import_symmetric_key_length (List.replicate 32 0)).2.2
      "AAAAAAAAAAAAAAAAAAAAAA==" (List.replicate 16 0) (by decide)).2 (by decide),
    (import_symmetric_key_length (List.replicate 32 0)).2.1 (by decide)⟩

/-- Claim C8: the device name is the first 32 characters of the base32
encoding of the hash of the NFD-normalized identifier, hence at most 32
characters long (and deterministic, being a pure function). -/
theorem device_name_derivation (did : String) :
    getDeviceName did
        = sliceChars (base32Encode (sha256 (fromString (normalizeNFD did)))) 32
    ∧ (getDeviceName did).length ≤ 32 := by
  refine ⟨rfl, ?_⟩
  show ((base32Encode (sha256 (fromString (normalizeNFD did)))).data.take 32).length ≤ 32
  rw [List.length_take]
  omega

/-- Claim C9: `AES.decrypt` with an explicit `iv` decrypts the whole input
under that `iv`; with the `iv` omitted it takes the first `IV_LENGTH`
bytes of the input as the `iv` and decrypts the remainder; hence the two
call forms agree exactly on inputs of the form `iv ++ ciphertext`. -/
theorem aes_decrypt_iv_handling (k : SymmKeyHandle) (iv ct data : Bytes)
    (h : iv.length = IV_LENGTH) :
    AES.decrypt (.bytes (iv ++ ct)) (.ck k) none
        = AES.decrypt (.bytes ct) (.ck k) (some iv)
    ∧ AES.decrypt (.bytes data) (.ck k) none
        = AES.decrypt (.bytes (data.drop IV_LENGTH)) (.ck k)
            (some (data.take IV_LENGTH)) := by
  constructor
  · simp only [AES.decrypt, resolveAesKey, decryptBytes, normalizeBase64ToBuf,
      contentBytes]
    rw [List.take_left' h, List.drop_left' h]
  · simp only [AES.decrypt, resolveAesKey, decryptBytes, normalizeBase64ToBuf,
      contentBytes]

/-- Claim C9 witness: the agreement between the two call forms at a
concrete 12-byte nonce and ciphertext. -/
theorem aes_decrypt_iv_handling_witness :
    (List.replicate 12 0 : Bytes).length = IV_LENGTH
      ∧ AES.decrypt (.bytes (List.replicate 12 0 ++ [5, 6])) (.ck ⟨[1]⟩) none
          = AES.decrypt (.bytes [5, 6]) (.ck ⟨[1]⟩) (some (List.replicate 12 0)) :=
  ⟨by decide,
    (aes_decrypt_iv_handling ⟨[1]⟩ (List.replicate 12 0) [5, 6] [] (by decide)).1⟩

/-- Claim C10: with a caller-supplied `iv`, symmetric encryption is a
deterministic function of data, key and `iv` — the randomness source is
never consulted. -/
theorem encrypt_fixed_iv_deterministic (data : Bytes) (cryptoKey : CryptoKeyOrBytes)
    (iv rng1 rng2 : Bytes) :
    encrypt data cryptoKey (some iv) rng1 = encrypt data cryptoKey (some iv) rng2 := by
  unfold encrypt
  cases resolveAesKey cryptoKey <;> rfl

theorem importAesKey_randomBuf32 (rng : Bytes) :
    importAesKey (randomBuf rng 32) = .ok ⟨randomBuf rng 32⟩ := by
  unfold importAesKey
  rw [if_pos (by rw [randomBuf_length]; decide)]

/-- Claim C2: opening the envelope sealed to a keypair's public key with
that keypair recovers exactly the original content (for any recipient key
large enough to wrap the default 32-byte symmetric key). -/
theorem envelope_roundtrip (content : Msg) (kp : RsaKeypair) (rngKey rngIv : Bytes)
    (h : 33 ≤ kp.sizeBytes) :
    (encryptTo content (pubOf kp) none rngKey rngIv).bind (fun env => openFrom env kp)
      = .ok (contentBytes content) := by
  have hk32 : (randomBuf rngKey 32).length = 32 := randomBuf_length ..
  have hiv : (randomBuf rngIv IV_LENGTH).length = IV_LENGTH := randomBuf_length ..
  rw [encryptTo_none_eq]
  have hcond : (randomBuf rngKey 32).length + 1 ≤ (pubOf kp).sizeBytes
      ∧ (randomBuf rngKey 32).length < 256 := by
    refine ⟨?_, ?_⟩
    · rw [hk32]; exact h
    · rw [hk32]; omega
  cases hw : rsaEncrypt (pubOf kp) (randomBuf rngKey 32) with
  | error e =>
      exfalso
      unfold rsaEncrypt at hw
      rw [if_pos hcond] at hw
      exact Except.noConfusion hw
  | ok w =>
      show openFrom (w ++ encryptBytes (contentBytes content) ⟨randomBuf rngKey 32⟩ rngIv) kp
        = .ok (contentBytes content)
      obtain ⟨_, _, hwl⟩ := rsaEncrypt_ok _ _ _ hw
      have hwl2 : w.length = kp.sizeBytes := hwl
      simp only [openFrom, List.take_left' hwl2, List.drop_left' hwl2,
        rsa_roundtrip kp _ _ hw, importAesKey_randomBuf32, AES.decrypt, resolveAesKey,
        decryptBytes, normalizeBase64ToBuf, encryptBytes, List.take_left' hiv,
        List.drop_left' hiv, gcm_roundtrip]

/-- Claim C2 witness: the round trip evaluated for a concrete keypair and
the content "hi". -/
theorem envelope_roundtrip_witness :
    33 ≤ (⟨7, 33⟩ : RsaKeypair).sizeBytes
      ∧ (encryptTo (.str "hi") (pubOf ⟨7, 33⟩) none [] []).bind
            (fun env => openFrom env ⟨7, 33⟩)
          = .ok (contentBytes (.str "hi")) :=
  ⟨by decide, envelope_roundtrip (.str "hi") ⟨7, 33⟩ [] [] (by decide)⟩

/-- Claim C5: every envelope `encryptTo` produces is
wrapped key (of length equal to the recipient key size) followed by the
12-byte nonce followed by the authenticated ciphertext, and
`encryptTo.asString` is the padded base64 encoding of that same buffer. -/
theorem envelope_wire_format (content : Msg) (pk : RsaPub) (aesKey : Option KeyMaterial)
    (rngKey rngIv : Bytes) :
    encryptTo.asString content pk aesKey rngKey rngIv
        = (encryptTo content pk aesKey rngKey rngIv).map toBase64Pad
    ∧ ∀ env, encryptTo content pk aesKey rngKey rngIv = .ok env →
        ∃ (w : Bytes) (kh : SymmKeyHandle), env = w ++ randomBuf rngIv IV_LENGTH
              ++ gcmEncrypt kh.raw (randomBuf rngIv IV_LENGTH) (contentBytes content)
          ∧ w.length = pk.sizeBytes
          ∧ (randomBuf rngIv IV_LENGTH).length = IV_LENGTH := by
  constructor
  · unfold encryptTo encryptTo.asString
    simp only []
    split
    · rfl
    split
    · rfl
    split
    · rfl
    · rfl
  · intro env henv
    obtain ⟨w, kh, heq, hwl⟩ := encryptTo_ok_shape content pk aesKey rngKey rngIv env henv
    refine ⟨w, kh, ?_, hwl, randomBuf_length ..⟩
    rw [heq, List.append_assoc]
    rfl

set_option maxRecDepth 8000 in
/-- Claim C5 witness: the wire-format decomposition and the base64 text
form evaluated on a concrete envelope. -/
theorem envelope_wire_format_witness :
    (encryptTo (.str "hi") ⟨7, 34⟩ none [1] [2] = .ok
        ((encryptTo (.str "hi") ⟨7, 34⟩ none [1] [2]).toOption.getD []))
      ∧ (∃ (w : Bytes) (kh : SymmKeyHandle),
            ((encryptTo (.str "hi") ⟨7, 34⟩ none [1] [2]).toOption.getD [])
            = w ++ randomBuf [2] IV_LENGTH
                ++ gcmEncrypt kh.raw (randomBuf [2] IV_LENGTH) (contentBytes (.str "hi"))
          ∧ w.length = (⟨7, 34⟩ : RsaPub).sizeBytes
          ∧ (randomBuf [2] IV_LENGTH).length = IV_LENGTH)
      ∧ encryptTo.asString (.str "hi") ⟨7, 34⟩ none [1] [2]
          = (encryptTo (.str "hi") ⟨7, 34⟩ none [1] [2]).map toBase64Pad :=
  ⟨by decide,
    (envelope_wire_format (.str "hi") ⟨7, 34⟩ none [1] [2]).2
      ((encryptTo (.str "hi") ⟨7, 34⟩ none [1] [2]).toOption.getD []) (by decide),
    (envelope_wire_format (.str "hi") ⟨7, 34⟩ none [1] [2]).1⟩

/-- Claim C4: flipping any bit of any byte in the authenticated-ciphertext
portion of a sealed envelope (past the wrapped key and the nonce) makes
`openFrom` with the correct recipient keypair fail with
`DecryptionFailed`; no altered or partial plaintext is ever returned. -/
theorem envelope_tamper_detection (content : Msg) (kp : RsaKeypair)
    (rngKey rngIv env : Bytes) (p k : Nat)
    (henv : encryptTo content (pubOf kp) none rngKey rngIv = .ok env)
    (hp1 : kp.sizeBytes + IV_LENGTH ≤ p) (hp2 : p < env.length) :
    openFrom (flipBit env p k) kp = .error .DecryptionFailed := by
  rw [encryptTo_none_eq] at henv
  cases hw : rsaEncrypt (pubOf kp) (randomBuf rngKey 32) with
  | error e => rw [hw] at henv; exact absurd henv (by simp [Except.map])
  | ok w =>
      rw [hw] at henv
      have henv2 : env
          = w ++ encryptBytes (contentBytes content) ⟨randomBuf rngKey 32⟩ rngIv :=
        (Except.ok.inj henv).symm
      obtain ⟨_, _, hwl⟩ := rsaEncrypt_ok _ _ _ hw
      have hwl2 : w.length = kp.sizeBytes := hwl
      have hEB : encryptBytes (contentBytes content) ⟨randomBuf rngKey 32⟩ rngIv
          = randomBuf rngIv IV_LENGTH
              ++ gcmEncrypt (randomBuf rngKey 32) (randomBuf rngIv IV_LENGTH)
                  (contentBytes content) := rfl
      rw [hEB] at henv2
      subst henv2
      have hivl : (randomBuf rngIv IV_LENGTH).length = IV_LENGTH := randomBuf_length ..
      have hctlen : p - w.length - IV_LENGTH
          < (gcmEncrypt (randomBuf rngKey 32) (randomBuf rngIv IV_LENGTH)
              (contentBytes content)).length := by
        have hlen : (w ++ (randomBuf rngIv IV_LENGTH
            ++ gcmEncrypt (randomBuf rngKey 32) (randomBuf rngIv IV_LENGTH)
                (contentBytes content))).length
            = w.length + ((randomBuf rngIv IV_LENGTH).length
              + (gcmEncrypt (randomBuf rngKey 32) (randomBuf rngIv IV_LENGTH)
                  (contentBytes content)).length) := by
          simp [List.length_append]
        rw [hlen] at hp2
        omega
      have h1 : flipBit (w ++ (randomBuf rngIv IV_LENGTH
          ++ gcmEncrypt (randomBuf rngKey 32) (randomBuf rngIv IV_LENGTH)
              (contentBytes content))) p k
          = w ++ flipBit (randomBuf rngIv IV_LENGTH
              ++ gcmEncrypt (randomBuf rngKey 32) (randomBuf rngIv IV_LENGTH)
                  (contentBytes content)) (p - w.length) k := by
        conv_lhs => rw [show p = w.length + (p - w.length) from by omega]
        rw [flipBit_append_right]
      have h2 : flipBit (randomBuf rngIv IV_LENGTH
          ++ gcmEncrypt (randomBuf rngKey 32) (randomBuf rngIv IV_LENGTH)
              (contentBytes content)) (p - w.length) k
          = randomBuf rngIv IV_LENGTH
            ++ flipBit (gcmEncrypt (randomBuf rngKey 32) (randomBuf rngIv IV_LENGTH)
                (contentBytes content)) (p - w.length - IV_LENGTH) k := by
        conv_lhs => rw [show p - w.length
            = (randomBuf rngIv IV_LENGTH).length + (p - w.length - IV_LENGTH) from by
          rw [hivl]; omega]
        rw [flipBit_append_right]
      rw [h1, h2]
      have htam := gcm_tamper (randomBuf rngKey 32) (randomBuf rngIv IV_LENGTH)
        (contentBytes content) (p - w.length - IV_LENGTH) k hctlen
      simp only [openFrom, List.take_left' hwl2, List.drop_left' hwl2,
        rsa_roundtrip kp _ _ hw, importAesKey_randomBuf32, AES.decrypt, resolveAesKey,
        decryptBytes, normalizeBase64ToBuf, List.take_left' hivl, List.drop_left' hivl,
        htam]

set_option maxRecDepth 8000 in
/-- Claim C4 witness: flipping bit 0 of the first ciphertext byte of a
concrete envelope makes `openFrom` fail with `DecryptionFailed`. -/
theorem envelope_tamper_detection_witness :
    (encryptTo (.str "hi") (pubOf ⟨5, 33⟩) none [] [] = .ok
        ((encryptTo (.str "hi") (pubOf ⟨5, 33⟩) none [] []).toOption.getD []))
      ∧ (⟨5, 33⟩ : RsaKeypair).sizeBytes + IV_LENGTH ≤ 45
      ∧ 45 < ((encryptTo (.str "hi") (pubOf ⟨5, 33⟩) none [] []).toOption.getD []).length
      ∧ openFrom
          (flipBit ((encryptTo (.str "hi") (pubOf ⟨5, 33⟩) none [] []).toOption.getD [])
            45 0) ⟨5, 33⟩
          = .error .DecryptionFailed :=
  ⟨by decide, by decide, by decide,
    envelope_tamper_detection (.str "hi") ⟨5, 33⟩ [] []
      ((encryptTo (.str "hi") (pubOf ⟨5, 33⟩) none [] []).toOption.getD [])
      45 0 (by decide) (by decide) (by decide)⟩
